import Mathlib

/-!
Verification of the PriceNexus search-tool repository.

The definitions below are shallow embeddings of the presentation-layer
logic of the repository (src/docs/QUICK_REBUILD_GUIDE.md, the executable
frontend code quoted there and in src/frontend/src/App.js) and of the backend
behavior documented in src/docs/TECHNICAL_SPECIFICATION.md.  JavaScript
numbers are modelled as rationals; JavaScript arrays as lists.
-/

namespace SearchTool

/-- The static currency rate table `CURRENCIES` from
QUICK_REBUILD_GUIDE.md lines 383-389 (rates relative to the INR base). -/
inductive Currency
  | INR
  | USD
  | GBP
  | EUR
  | AED
  deriving DecidableEq, Repr

/-- Rates `CURRENCIES[code].rate`: INR 1, USD 0.012, GBP 0.0095, EUR 0.011, AED 0.044. -/
def Currency.rate : Currency → ℚ
  | Currency.INR => 1
  | Currency.USD => 12 / 1000
  | Currency.GBP => 95 / 10000
  | Currency.EUR => 11 / 1000
  | Currency.AED => 44 / 1000

/-- Embeds `PriceSummary.convertPrice` (QUICK_REBUILD_GUIDE.md lines 1720-1723):
convert to the INR base first, then to the target currency. -/
def convertPrice (price : ℚ) (originalCode target : Currency) : ℚ :=
  let inINR := if originalCode = Currency.INR then price else price / originalCode.rate
  inINR * target.rate

/-- The canonical normalized product record (`ProductResult` in
TECHNICAL_SPECIFICATION.md lines 203-221, plus the optional attribute
fields used by the advanced client-side filters).  `sourceType` is the
type of the originating data source ("Global Suppliers" / "Local Markets" /
"Online Marketplaces").  `currencyCode` is `none` when the record carries
no `currency_code` (the frontend then falls back to "INR"). -/
structure Product where
  name : String
  price : ℚ
  rating : ℚ
  availability : String
  source : String
  sourceType : String
  currencyCode : Option Currency
  brand : Option String
  model : Option String
  color : Option String
  size : Option String
  material : Option String
  specifications : Option (List (String × String))
  deriving DecidableEq, Repr

/-- Embeds `useCompare.addToCompare` (QUICK_REBUILD_GUIDE.md lines 488-499):
reject when the list already holds 4 products, reject duplicates by
(name, source), otherwise append. -/
def addToCompare (l : List Product) (p : Product) : List Product :=
  if 4 ≤ l.length then l
  else if l.any (fun q => q.name == p.name && q.source == p.source) then l
  else l ++ [p]

/-- Embeds `useCompare.removeFromCompare` (QUICK_REBUILD_GUIDE.md lines 501-503). -/
def removeFromCompare (l : List Product) (p : Product) : List Product :=
  l.filter (fun q => !(q.name == p.name && q.source == p.source))

/-- One user interaction with the comparison list. -/
inductive CompareOp
  | add (p : Product)
  | remove (p : Product)
  | clear

/-- Apply one comparison-list operation. -/
def applyCompareOp (l : List Product) : CompareOp → List Product
  | CompareOp.add p => addToCompare l p
  | CompareOp.remove p => removeFromCompare l p
  | CompareOp.clear => []

/-- Run a sequence of comparison-list operations from the initial
(empty) `compareList` state. -/
def runCompare (ops : List CompareOp) : List Product :=
  ops.foldl applyCompareOp []

theorem length_applyCompareOp_le (l : List Product) (op : CompareOp)
    (h : l.length ≤ 4) : (applyCompareOp l op).length ≤ 4 := by
  cases op with
  | add p =>
      show (addToCompare l p).length ≤ 4
      unfold addToCompare
      split
      · exact h
      · split
        · exact h
        · rename_i h4 _
          simp only [List.length_append, List.length_cons, List.length_nil]
          omega
  | remove p =>
      show (removeFromCompare l p).length ≤ 4
      exact le_trans (List.length_filter_le _ _) h
  | clear =>
      show ([] : List Product).length ≤ 4
      simp

theorem runCompare_length_le (ops : List CompareOp) :
    (runCompare ops).length ≤ 4 := by
  unfold runCompare
  have h : ∀ (l : List Product), l.length ≤ 4 →
      (ops.foldl applyCompareOp l).length ≤ 4 := by
    induction ops with
    | nil => intro l hl; simpa using hl
    | cons op rest ih =>
        intro l hl
        exact ih _ (length_applyCompareOp_le l op hl)
  exact h [] (by simp)

/-- C4: In every reachable UI state the comparison list holds at most 4
products; any sequence of operations from the empty list keeps the length
at most 4, and an add on a list that already has 4 items leaves the list
unchanged. -/
theorem compare_bounded_to_four :
    (∀ ops : List CompareOp, (runCompare ops).length ≤ 4) ∧
    (∀ (l : List Product) (p : Product), l.length = 4 → addToCompare l p = l) := by
  constructor
  · exact runCompare_length_le
  · intro l p hl
    unfold addToCompare
    rw [if_pos (by omega)]

/-- A sample product record used to evaluate the definitions at concrete
inputs. -/
def sampleProduct (nm src : String) (price rating : ℚ) : Product :=
  { name := nm
    price := price
    rating := rating
    availability := "In Stock"
    source := src
    sourceType := "Online Marketplaces"
    currencyCode := some Currency.INR
    brand := none
    model := none
    color := none
    size := none
    material := none
    specifications := none }

theorem compare_bounded_to_four_witness :
    addToCompare
      [sampleProduct "A" "Amazon.in" 100 4,
       sampleProduct "B" "Flipkart" 200 4,
       sampleProduct "C" "Croma" 300 4,
       sampleProduct "D" "Snapdeal" 400 4]
      (sampleProduct "E" "IndiaMART" 500 4) =
      [sampleProduct "A" "Amazon.in" 100 4,
       sampleProduct "B" "Flipkart" 200 4,
       sampleProduct "C" "Croma" 300 4,
       sampleProduct "D" "Snapdeal" 400 4] :=
  compare_bounded_to_four.2 _ _ (by rfl)

/-- C3: converting a price A to B and back to A through the base-currency
rate table reproduces the original value (exactly, in the rational model,
hence within any rounding tolerance). -/
theorem currency_roundtrip (price : ℚ) (a b : Currency) :
    convertPrice (convertPrice price a b) b a = price := by
  cases a <;> cases b <;> simp [convertPrice, Currency.rate]

/-- One entry of the client-side search history
(`useSearchHistory`, QUICK_REBUILD_GUIDE.md lines 459-482). -/
structure HistoryEntry where
  query : String
  timestamp : String
  deriving DecidableEq, Repr

/-- Embeds `useSearchHistory.addToHistory` (QUICK_REBUILD_GUIDE.md lines 469-474):
drop any entry with the same query, push the new entry to the front and
keep the first 10 entries. -/
def addToHistory (l : List HistoryEntry) (q ts : String) : List HistoryEntry :=
  (({ query := q, timestamp := ts } : HistoryEntry) ::
    l.filter (fun h => !(h.query == q))).take 10

/-- Run a sequence of `addToHistory` calls from the initial (empty)
history state. -/
def runHistory (ops : List (String × String)) : List HistoryEntry :=
  ops.foldl (fun l op => addToHistory l op.1 op.2) []

theorem length_addToHistory_le (l : List HistoryEntry) (q ts : String) :
    (addToHistory l q ts).length ≤ 10 := by
  unfold addToHistory
  exact le_trans (List.length_take_le _ _) (le_refl 10)

theorem nodup_addToHistory (l : List HistoryEntry) (q ts : String)
    (h : (l.map HistoryEntry.query).Nodup) :
    ((addToHistory l q ts).map HistoryEntry.query).Nodup := by
  unfold addToHistory
  have hsub : List.Sublist
      (((({ query := q, timestamp := ts } : HistoryEntry) ::
        l.filter (fun h => !(h.query == q))).take 10).map HistoryEntry.query)
      ((({ query := q, timestamp := ts } : HistoryEntry) ::
        l.filter (fun h => !(h.query == q))).map HistoryEntry.query) :=
    List.Sublist.map _ (List.take_sublist _ _)
  refine List.Nodup.sublist hsub ?_
  simp only [List.map_cons]
  refine List.nodup_cons.mpr ⟨?_, ?_⟩
  · intro hmem
    rcases List.mem_map.mp hmem with ⟨e, he, hq⟩
    have := List.of_mem_filter he
    simp only [Bool.not_eq_true', beq_eq_false_iff_ne] at this
    exact this hq
  · exact List.Nodup.sublist (List.Sublist.map _ (List.filter_sublist _)) h

theorem runHistory_nodup_aux (ops : List (String × String)) :
    ∀ l : List HistoryEntry, (l.map HistoryEntry.query).Nodup →
      ((ops.foldl (fun l op => addToHistory l op.1 op.2) l).map
        HistoryEntry.query).Nodup := by
  induction ops with
  | nil => intro l hl; simpa using hl
  | cons op rest ih =>
      intro l hl
      exact ih _ (nodup_addToHistory l op.1 op.2 hl)

theorem count_addToHistory (l : List HistoryEntry) (q ts : String) :
    ((addToHistory l q ts).map HistoryEntry.query).count q = 1 := by
  unfold addToHistory
  rw [List.take_succ_cons]
  have hzero : List.count q
      (((l.filter (fun h => !(h.query == q))).map HistoryEntry.query).take 9)
      = 0 := by
    rw [List.count_eq_zero]
    intro hmem
    rcases List.mem_map.mp (List.mem_of_mem_take hmem) with ⟨e, he, hq⟩
    have := List.of_mem_filter he
    simp only [Bool.not_eq_true', beq_eq_false_iff_ne] at this
    exact this hq
  simp [List.count_cons, hzero]

/-- C8: after any sequence of `addToHistory` operations starting from the
empty history, the history holds at most 10 entries whose query strings
are pairwise distinct; each `addToHistory` puts its query first and stores
it exactly once (so re-adding moves the entry to the front instead of
duplicating it). -/
theorem history_invariants :
    (∀ ops : List (String × String),
      (runHistory ops).length ≤ 10 ∧
      ((runHistory ops).map HistoryEntry.query).Nodup) ∧
    (∀ (l : List HistoryEntry) (q ts : String),
      (addToHistory l q ts).head?.map HistoryEntry.query = some q ∧
      ((addToHistory l q ts).map HistoryEntry.query).count q = 1) := by
  constructor
  · intro ops
    constructor
    · cases hops : ops.reverse with
      | nil =>
          have : ops = [] := by
            have := congrArg List.reverse hops
            simpa using this
          simp [this, runHistory]
      | cons last rest =>
          have : ops = rest.reverse ++ [last] := by
            have := congrArg List.reverse hops
            simpa using this
          rw [this]
          unfold runHistory
          rw [List.foldl_append]
          exact length_addToHistory_le _ _ _
    · exact runHistory_nodup_aux ops [] (by simp)
  · intro l q ts
    constructor
    · unfold addToHistory
      rw [List.take_succ_cons]
      rfl
    · exact count_addToHistory l q ts

/-- A stored favorite: the product plus the `addedAt` timestamp attached
by `useFavorites.addFavorite`. -/
structure FavoriteEntry where
  product : Product
  addedAt : String
  deriving DecidableEq, Repr

/-- Embeds `useFavorites.addFavorite` (QUICK_REBUILD_GUIDE.md lines 436-444):
if a favorite with the same (name, source) already exists the list is
returned unchanged, otherwise the product is appended with an `addedAt`
timestamp. -/
def addFavorite (l : List FavoriteEntry) (p : Product) (now : String) :
    List FavoriteEntry :=
  if l.any (fun q => q.product.name == p.name && q.product.source == p.source)
  then l
  else l ++ [{ product := p, addedAt := now }]

/-- C9: `addFavorite` is idempotent with respect to (name, source): adding
a product whose name and source already appear in the favorites list
leaves the list unchanged. -/
theorem addFavorite_idempotent (l : List FavoriteEntry) (p : Product)
    (now : String)
    (h : ∃ q ∈ l, q.product.name = p.name ∧ q.product.source = p.source) :
    addFavorite l p now = l := by
  unfold addFavorite
  rw [if_pos]
  rcases h with ⟨q, hql, hname, hsource⟩
  refine List.any_eq_true.mpr ⟨q, hql, ?_⟩
  simp [hname, hsource]

theorem addFavorite_idempotent_witness :
    addFavorite
      [{ product := sampleProduct "A" "Amazon.in" 100 4, addedAt := "t0" }]
      (sampleProduct "A" "Amazon.in" 250 3) "t1" =
      [{ product := sampleProduct "A" "Amazon.in" 100 4, addedAt := "t0" }] :=
  addFavorite_idempotent _ _ _
    ⟨{ product := sampleProduct "A" "Amazon.in" 100 4, addedAt := "t0" },
      by simp, rfl, rfl⟩

/-- The `filters` state of `SearchPage`
(QUICK_REBUILD_GUIDE.md lines 2017-2029). -/
structure Filters where
  priceRange : ℚ × ℚ
  minRating : ℚ
  availability : List String
  sourceTypes : List String
  selectedBrand : Option String
  selectedModel : Option String
  selectedColor : Option String
  selectedSize : Option String
  selectedMaterial : Option String
  selectedSpecs : List (String × String)
  deriving DecidableEq, Repr

/-- The filter predicate of `SearchPage.filteredResults`
(QUICK_REBUILD_GUIDE.md lines 2040-2064), embedded condition for
condition: price range, rating floor, availability set, then the advanced
brand/model/color/size/material equality checks and the specifications
check.  (The predicate in the source never consults `filters.sourceTypes`.) -/
def meetsFilters (f : Filters) (r : Product) : Bool :=
  let meetsPrice := decide (f.priceRange.1 ≤ r.price) &&
    decide (r.price ≤ f.priceRange.2)
  let meetsRating := decide (f.minRating ≤ r.rating)
  let meetsAvailability := f.availability.contains r.availability
  let meetsBrand := match f.selectedBrand with
    | none => true
    | some b => r.brand == some b
  let meetsModel := match f.selectedModel with
    | none => true
    | some m => r.model == some m
  let meetsColor := match f.selectedColor with
    | none => true
    | some c => r.color == some c
  let meetsSize := match f.selectedSize with
    | none => true
    | some s => r.size == some s
  let meetsMaterial := match f.selectedMaterial with
    | none => true
    | some m => r.material == some m
  let meetsSpecs := f.selectedSpecs.all (fun kv =>
    match r.specifications with
    | none => true
    | some specs => (specs.lookup kv.1 == some kv.2))
  meetsPrice && meetsRating && meetsAvailability && meetsBrand &&
    meetsModel && meetsColor && meetsSize && meetsMaterial && meetsSpecs

/-- The `.sort(...)` comparator step of `SearchPage.filteredResults`
(QUICK_REBUILD_GUIDE.md lines 2065-2073): sort by the selected key;
the default ("relevance") leaves the order unchanged. -/
def sortResults (key : String) (l : List Product) : List Product :=
  if key == "price-low" then
    List.insertionSort (fun a b : Product => a.price ≤ b.price) l
  else if key == "price-high" then
    List.insertionSort (fun a b : Product => b.price ≤ a.price) l
  else if key == "rating" then
    List.insertionSort (fun a b : Product => b.rating ≤ a.rating) l
  else if key == "name" then
    List.insertionSort (fun a b : Product => a.name ≤ b.name) l
  else l

/-- Embeds `SearchPage.filteredResults`: filter, then sort. -/
def filteredResults (f : Filters) (key : String) (results : List Product) :
    List Product :=
  sortResults key (results.filter (meetsFilters f))

/-- A fully permissive filter state except that no source type is
selected: every Source Type checkbox of the FilterPanel
(QUICK_REBUILD_GUIDE.md lines 775-794) is unchecked. -/
def noSourceTypeFilters : Filters :=
  { priceRange := (0, 1000000)
    minRating := 0
    availability := ["In Stock", "Limited Stock", "Pre-Order"]
    sourceTypes := []
    selectedBrand := none
    selectedModel := none
    selectedColor := none
    selectedSize := none
    selectedMaterial := none
    selectedSpecs := [] }

/-- C2 (divergence witness): a product whose source type
("Online Marketplaces", see `sampleProduct`) is NOT in the selected
source-type set (which is empty) still appears in the displayed results:
the filter predicate of `SearchPage.filteredResults` never consults
`filters.sourceTypes`, contradicting the FilterPanel UI and the claim. -/
theorem sourceType_filter_ignored :
    noSourceTypeFilters.sourceTypes.contains
      (sampleProduct "Dell Inspiron 15" "Amazon.in" 45000 4).sourceType
      = false ∧
    filteredResults noSourceTypeFilters "relevance"
      [sampleProduct "Dell Inspiron 15" "Amazon.in" 45000 4] =
      [sampleProduct "Dell Inspiron 15" "Amazon.in" 45000 4] :=
  ⟨rfl, rfl⟩

/-- The badge assigned by `BestDealBadge`
(QUICK_REBUILD_GUIDE.md lines 550-580). -/
inductive Badge
  | lowestPrice
  | bestDeal
  | noBadge
  deriving DecidableEq, Repr

/-- Embeds `Math.min(...xs)` over a non-empty spread list, as a fold; the `[]`
case (JavaScript would give Infinity) is mapped to 0 and never reached by
the callers below on non-empty input. -/
def jsMin (l : List ℚ) : ℚ :=
  match l with
  | [] => 0
  | x :: xs => xs.foldl min x

/-- Embeds `Math.max(...xs)` over a non-empty spread list, as a fold. -/
def jsMax (l : List ℚ) : ℚ :=
  match l with
  | [] => 0
  | x :: xs => xs.foldl max x

/-- Embeds the average `prices.reduce((a, b) => a + b, 0) / prices.length`. -/
def jsAvg (l : List ℚ) : ℚ := l.sum / l.length

/-- Embeds `BestDealBadge` (QUICK_REBUILD_GUIDE.md lines 550-580): the lowest
price wins over the best-deal heuristic (rating at least 4.0 and price at
most 0.85 times the average). -/
def bestDealBadge (product : Product) (allProducts : List Product) : Badge :=
  let prices := allProducts.map Product.price
  let avgPrice := jsAvg prices
  let minPrice := jsMin prices
  if product.price = minPrice then Badge.lowestPrice
  else if 4 ≤ product.rating ∧ product.price ≤ avgPrice * (85 / 100) then
    Badge.bestDeal
  else Badge.noBadge

/-- C6 (counterexample): in the two-product list below, product "A"
satisfies the Best-Deal condition of the claim (rating 4.5 at least 4.0, price
100 at most 0.85 times the average 550), yet `BestDealBadge` does not
assign it the Best Deal badge (it has the minimum price, so the Lowest
Price badge takes precedence). -/
theorem bestDeal_claim_counterexample :
    (4 ≤ (sampleProduct "A" "Amazon.in" 100 (9/2)).rating ∧
      (sampleProduct "A" "Amazon.in" 100 (9/2)).price ≤
        jsAvg ([sampleProduct "A" "Amazon.in" 100 (9/2),
           sampleProduct "B" "Flipkart" 1000 4].map Product.price) *
          (85 / 100)) ∧
    bestDealBadge (sampleProduct "A" "Amazon.in" 100 (9/2))
      [sampleProduct "A" "Amazon.in" 100 (9/2),
       sampleProduct "B" "Flipkart" 1000 4] ≠ Badge.bestDeal := by
  refine ⟨⟨by norm_num [sampleProduct], ?_⟩, ?_⟩
  · show (100 : ℚ) ≤ (100 + (1000 + 0)) / 2 * (85 / 100)
    norm_num
  · show bestDealBadge _ _ ≠ Badge.bestDeal
    unfold bestDealBadge
    norm_num [sampleProduct, jsMin]
    decide

/-- C6 (amended): for every non-empty product list, `BestDealBadge`
assigns the Lowest Price badge exactly when the price of the product equals
the minimum displayed price, and the Best Deal badge exactly when the
rating is at least 4.0, the price is at most 0.85 times the average
displayed price, and the price is NOT the minimum (minimum-priced
products get the Lowest Price badge instead). -/
theorem bestDealBadge_characterization (p : Product) (l : List Product)
    (_hne : l ≠ []) :
    (bestDealBadge p l = Badge.lowestPrice ↔
      p.price = jsMin (l.map Product.price)) ∧
    (bestDealBadge p l = Badge.bestDeal ↔
      (4 ≤ p.rating ∧
        p.price ≤ jsAvg (l.map Product.price) * (85 / 100) ∧
        p.price ≠ jsMin (l.map Product.price))) := by
  unfold bestDealBadge
  by_cases hmin : p.price = jsMin (l.map Product.price)
  · simp [hmin]
  · by_cases hdeal : 4 ≤ p.rating ∧
        p.price ≤ jsAvg (l.map Product.price) * (85 / 100)
    · simp [hmin, hdeal]
    · simp only [if_neg hmin, if_neg hdeal]
      refine ⟨⟨fun h => by simp at h, fun h => absurd h hmin⟩,
        ⟨fun h => by simp at h, fun h => absurd ⟨h.1, h.2.1⟩ hdeal⟩⟩

theorem bestDealBadge_characterization_witness :
    bestDealBadge (sampleProduct "A" "Amazon.in" 100 (9/2))
      [sampleProduct "A" "Amazon.in" 100 (9/2),
       sampleProduct "B" "Flipkart" 1000 4] = Badge.lowestPrice :=
  ((bestDealBadge_characterization (sampleProduct "A" "Amazon.in" 100 (9/2))
      [sampleProduct "A" "Amazon.in" 100 (9/2),
       sampleProduct "B" "Flipkart" 1000 4] (by simp)).1).mpr (by
    show (100 : ℚ) = jsMin [100, 1000]
    norm_num [jsMin, List.foldl])

/-- C5: for every filter state and result list, the sort step of
`SearchPage.filteredResults` is correct for each sort key: "price-low"
yields price-ascending order, "price-high" price-descending, "rating"
rating-descending, "name" name-ascending; and for every key the displayed
list is a permutation of the filtered list (sorting neither drops nor
invents results). -/
theorem sorting_correct (f : Filters) (l : List Product) :
    List.Sorted (fun a b : Product => a.price ≤ b.price)
      (filteredResults f "price-low" l) ∧
    List.Sorted (fun a b : Product => b.price ≤ a.price)
      (filteredResults f "price-high" l) ∧
    List.Sorted (fun a b : Product => b.rating ≤ a.rating)
      (filteredResults f "rating" l) ∧
    List.Sorted (fun a b : Product => a.name ≤ b.name)
      (filteredResults f "name" l) ∧
    (∀ key : String,
      List.Perm (filteredResults f key l) (l.filter (meetsFilters f))) := by
  refine ⟨?_, ?_, ?_, ?_, ?_⟩
  · show List.Sorted _ (List.insertionSort _ (l.filter (meetsFilters f)))
    haveI : IsTotal Product (fun a b : Product => a.price ≤ b.price) :=
      ⟨fun a b => le_total a.price b.price⟩
    haveI : IsTrans Product (fun a b : Product => a.price ≤ b.price) :=
      ⟨fun _ _ _ h₁ h₂ => le_trans h₁ h₂⟩
    exact List.sorted_insertionSort _ _
  · show List.Sorted _ (List.insertionSort _ (l.filter (meetsFilters f)))
    haveI : IsTotal Product (fun a b : Product => b.price ≤ a.price) :=
      ⟨fun a b => le_total b.price a.price⟩
    haveI : IsTrans Product (fun a b : Product => b.price ≤ a.price) :=
      ⟨fun _ _ _ h₁ h₂ => le_trans h₂ h₁⟩
    exact List.sorted_insertionSort _ _
  · show List.Sorted _ (List.insertionSort _ (l.filter (meetsFilters f)))
    haveI : IsTotal Product (fun a b : Product => b.rating ≤ a.rating) :=
      ⟨fun a b => le_total b.rating a.rating⟩
    haveI : IsTrans Product (fun a b : Product => b.rating ≤ a.rating) :=
      ⟨fun _ _ _ h₁ h₂ => le_trans h₂ h₁⟩
    exact List.sorted_insertionSort _ _
  · show List.Sorted _ (List.insertionSort _ (l.filter (meetsFilters f)))
    haveI : IsTotal Product (fun a b : Product => a.name ≤ b.name) :=
      ⟨fun a b => le_total a.name b.name⟩
    haveI : IsTrans Product (fun a b : Product => a.name ≤ b.name) :=
      ⟨fun _ _ _ h₁ h₂ => le_trans h₁ h₂⟩
    exact List.sorted_insertionSort _ _
  · intro key
    unfold filteredResults sortResults
    split
    · exact List.perm_insertionSort _ _
    · split
      · exact List.perm_insertionSort _ _
      · split
        · exact List.perm_insertionSort _ _
        · split
          · exact List.perm_insertionSort _ _
          · exact List.Perm.refl _

theorem foldl_min_le_init (xs : List ℚ) (a : ℚ) : xs.foldl min a ≤ a := by
  induction xs generalizing a with
  | nil => exact le_refl a
  | cons x xs ih => exact le_trans (ih (min a x)) (min_le_left a x)

theorem foldl_min_le_mem (xs : List ℚ) :
    ∀ (a x : ℚ), x ∈ xs → xs.foldl min a ≤ x := by
  induction xs with
  | nil => intro a x hx; cases hx
  | cons y ys ih =>
      intro a x hx
      rcases List.mem_cons.mp hx with h | h
      · subst h
        exact le_trans (foldl_min_le_init ys (min a x)) (min_le_right a x)
      · exact ih (min a y) x h

theorem jsMin_le_mem (l : List ℚ) (x : ℚ) (hx : x ∈ l) : jsMin l ≤ x := by
  cases l with
  | nil => cases hx
  | cons y ys =>
      unfold jsMin
      rcases List.mem_cons.mp hx with h | h
      · subst h
        exact foldl_min_le_init ys x
      · exact foldl_min_le_mem ys y x h

theorem length_pos_rat (l : List ℚ) (hne : l ≠ []) : (0 : ℚ) < l.length := by
  cases l with
  | nil => exact absurd rfl hne
  | cons x xs =>
      have h : 0 < (x :: xs).length := Nat.succ_pos xs.length
      exact_mod_cast h

theorem init_le_foldl_max (xs : List ℚ) (a : ℚ) : a ≤ xs.foldl max a := by
  induction xs generalizing a with
  | nil => exact le_refl a
  | cons x xs ih => exact le_trans (le_max_left a x) (ih (max a x))

theorem mem_le_foldl_max (xs : List ℚ) :
    ∀ (a x : ℚ), x ∈ xs → x ≤ xs.foldl max a := by
  induction xs with
  | nil => intro a x hx; cases hx
  | cons y ys ih =>
      intro a x hx
      rcases List.mem_cons.mp hx with h | h
      · subst h
        exact le_trans (le_max_right a x) (init_le_foldl_max ys (max a x))
      · exact ih (max a y) x h

theorem mem_le_jsMax (l : List ℚ) (x : ℚ) (hx : x ∈ l) : x ≤ jsMax l := by
  cases l with
  | nil => cases hx
  | cons y ys =>
      unfold jsMax
      rcases List.mem_cons.mp hx with h | h
      · subst h
        exact init_le_foldl_max ys x
      · exact mem_le_foldl_max ys y x h

theorem mul_length_le_sum (l : List ℚ) (m : ℚ) (h : ∀ x ∈ l, m ≤ x) :
    m * l.length ≤ l.sum := by
  induction l with
  | nil => simp
  | cons x xs ih =>
      have hx : m ≤ x := h x (List.mem_cons_self x xs)
      have hxs : m * xs.length ≤ xs.sum :=
        ih (fun y hy => h y (List.mem_cons_of_mem x hy))
      simp only [List.sum_cons, List.length_cons]
      push_cast
      nlinarith

theorem sum_le_mul_length (l : List ℚ) (m : ℚ) (h : ∀ x ∈ l, x ≤ m) :
    l.sum ≤ m * l.length := by
  induction l with
  | nil => simp
  | cons x xs ih =>
      have hx : x ≤ m := h x (List.mem_cons_self x xs)
      have hxs : xs.sum ≤ m * xs.length :=
        ih (fun y hy => h y (List.mem_cons_of_mem x hy))
      simp only [List.sum_cons, List.length_cons]
      push_cast
      nlinarith

theorem jsMin_le_jsAvg (l : List ℚ) (hne : l ≠ []) : jsMin l ≤ jsAvg l := by
  have hlen : (0 : ℚ) < l.length := length_pos_rat l hne
  unfold jsAvg
  rw [le_div_iff₀ hlen]
  exact mul_length_le_sum l (jsMin l) (jsMin_le_mem l)

theorem jsAvg_le_jsMax (l : List ℚ) (hne : l ≠ []) : jsAvg l ≤ jsMax l := by
  have hlen : (0 : ℚ) < l.length := length_pos_rat l hne
  unfold jsAvg
  rw [div_le_iff₀ hlen]
  have := sum_le_mul_length l (jsMax l) (mem_le_jsMax l)
  linarith

/-- Embeds `PriceSummary` (QUICK_REBUILD_GUIDE.md lines 1717-1753): `null` on an
empty result list, otherwise the (lowest, highest, average) of the
currency-converted prices; a result without a currency code falls back to
"INR". -/
def priceSummary (results : List Product) (selected : Currency) :
    Option (ℚ × ℚ × ℚ) :=
  if results.isEmpty then none
  else
    let prices := results.map (fun r =>
      convertPrice r.price (r.currencyCode.getD Currency.INR) selected)
    some (jsMin prices, jsMax prices, jsAvg prices)

/-- C10: whenever `PriceSummary` renders (non-empty displayed list, any
selected currency), the three summary values satisfy
Lowest Price at most Average Price at most Highest Price, computed over
the currency-converted prices of the displayed results. -/
theorem priceSummary_ordered (results : List Product) (selected : Currency)
    (mn mx av : ℚ) (h : priceSummary results selected = some (mn, mx, av)) :
    mn ≤ av ∧ av ≤ mx := by
  unfold priceSummary at h
  by_cases hne : results.isEmpty
  · rw [if_pos hne] at h
    cases h
  · rw [if_neg hne] at h
    simp only [Option.some.injEq, Prod.mk.injEq] at h
    obtain ⟨hmn, hmx, hav⟩ := h
    have hlne : results.map (fun r =>
        convertPrice r.price (r.currencyCode.getD Currency.INR) selected)
        ≠ [] := by
      intro hcon
      apply hne
      rcases List.map_eq_nil_iff.mp hcon with h0
      simp [h0]
    subst hmn
    subst hmx
    subst hav
    exact ⟨jsMin_le_jsAvg _ hlne, jsAvg_le_jsMax _ hlne⟩

theorem priceSummary_ordered_witness :
    (100 : ℚ) ≤ 550 ∧ (550 : ℚ) ≤ 1000 := by
  have h := priceSummary_ordered
    [sampleProduct "A" "Amazon.in" 100 4, sampleProduct "B" "Flipkart" 1000 4]
    Currency.INR 100 1000 550 (by
      norm_num [priceSummary, sampleProduct, convertPrice, Currency.rate,
        jsMin, jsMax, jsAvg, List.foldl])
  exact h

/-- The `/search` response payload (TECHNICAL_SPECIFICATION.md lines
97-126, consumed by `SearchPage`). -/
structure SearchResponse where
  success : Bool
  query : String
  message : String
  results : List Product
  resultsCount : Nat
  deriving Repr

/-- What the results container renders. -/
inductive RenderedView
  | productGrid (products : List Product)
  | unavailable (query message : String)
  deriving Repr

/-- The results-container branch of `SearchPage`
(src/frontend/src/App.js lines 597-683): when `success` is true the
product grid is rendered from `searchResults.results`, otherwise the
`SearchUnavailable` component (App.js lines 300-323) with the query and
message. -/
def renderResults (resp : SearchResponse) : RenderedView :=
  if resp.success then RenderedView.productGrid resp.results
  else RenderedView.unavailable resp.query resp.message

/-- Modelled from the spec: the backend `/search` handler
(backend/server.py is not part of the repository snapshot; only its
documentation is).  Per TECHNICAL_SPECIFICATION.md section 10.1 and spec
sections 4.6 and 7, an unsearchable intent short-circuits to
`success=False, message="Search Unavailable", results=[],
results_count=0`; otherwise the merged fetcher output is returned with
`success=True`. -/
def searchEndpoint (isSearchable : Bool) (q : String) (fetched : List Product) :
    SearchResponse :=
  if isSearchable then
    { success := true
      query := q
      message := ""
      results := fetched
      resultsCount := fetched.length }
  else
    { success := false
      query := q
      message := "Search Unavailable"
      results := []
      resultsCount := 0 }

/-- C1: every `/search` response with `success = false` carries an empty
results list, and the presentation layer renders the user-facing
"Search Unavailable" view for it rather than a product grid, so no
fabricated or partial product data is ever displayed in that case. -/
theorem unavailable_means_no_results (isSearchable : Bool) (q : String)
    (fetched : List Product)
    (h : (searchEndpoint isSearchable q fetched).success = false) :
    (searchEndpoint isSearchable q fetched).results = [] ∧
    renderResults (searchEndpoint isSearchable q fetched) =
      RenderedView.unavailable q "Search Unavailable" ∧
    (∀ ps : List Product,
      renderResults (searchEndpoint isSearchable q fetched) ≠
        RenderedView.productGrid ps) := by
  cases isSearchable with
  | true => simp [searchEndpoint] at h
  | false =>
      refine ⟨rfl, rfl, ?_⟩
      intro ps hcon
      simp [searchEndpoint, renderResults] at hcon

theorem unavailable_means_no_results_witness :
    (searchEndpoint false "asdkjasdkj nonsense product" []).results = [] ∧
    renderResults (searchEndpoint false "asdkjasdkj nonsense product" []) =
      RenderedView.unavailable "asdkjasdkj nonsense product"
        "Search Unavailable" :=
  ⟨(unavailable_means_no_results false "asdkjasdkj nonsense product" [] rfl).1,
   (unavailable_means_no_results false "asdkjasdkj nonsense product" [] rfl).2.1⟩

/-- Modelled from the spec: the tokenizer used by the keyword matching of
`extract_location` (backend/server.py is not part of the repository
snapshot).  Spec section 4.1: lowercase the query and compare keywords at
word boundaries; a token is a maximal run of non-space characters. -/
def wordsOfAux : List Char → List Char → List (List Char)
  | [], acc => if acc.isEmpty then [] else [acc.reverse]
  | c :: rest, acc =>
      if c = ' ' then
        if acc.isEmpty then wordsOfAux rest []
        else acc.reverse :: wordsOfAux rest []
      else wordsOfAux rest (c :: acc)

/-- The lowercased word tokens of a query. -/
def wordTokens (cs : List Char) : List (List Char) :=
  wordsOfAux (cs.map Char.toLower) []

/-- Whether the first token list is an initial run of the second. -/
def leadsWith {α : Type} [DecidableEq α] : List α → List α → Bool
  | [], _ => true
  | _ :: _, [] => false
  | a :: as, b :: bs => if a = b then leadsWith as bs else false

/-- Whether the first token list occurs as a contiguous run inside the
second. -/
def occursWithin {α : Type} [DecidableEq α] (ks : List α) : List α → Bool
  | [] => leadsWith ks []
  | w :: t => leadsWith ks (w :: t) || occursWithin ks (t)

/-- Modelled from the spec: the city/country keyword test of
`extract_location` (spec section 4.1): a (possibly multi-word) keyword matches the
query exactly when its word tokens occur as a contiguous run of whole
word tokens of the lowercased query. -/
def keywordMatches (kw q : List Char) : Bool :=
  occursWithin (wordTokens kw) (wordTokens q)

theorem leadsWith_exists {α : Type} [DecidableEq α] :
    ∀ (ks ws : List α), leadsWith ks ws = true → ∃ t, ws = ks ++ t := by
  intro ks
  induction ks with
  | nil => intro ws _; exact ⟨ws, rfl⟩
  | cons a as ih =>
      intro ws h
      cases ws with
      | nil => simp [leadsWith] at h
      | cons b bs =>
          unfold leadsWith at h
          split at h
          · rename_i hab
            rcases ih bs h with ⟨t, ht⟩
            exact ⟨t, by rw [hab, ht]; rfl⟩
          · cases h

theorem occursWithin_exists {α : Type} [DecidableEq α] (ks : List α) :
    ∀ ws : List α, occursWithin ks ws = true →
      ∃ pre suf, ws = pre ++ ks ++ suf := by
  intro ws
  induction ws with
  | nil =>
      intro h
      unfold occursWithin at h
      rcases leadsWith_exists ks [] h with ⟨t, ht⟩
      cases ks with
      | nil => exact ⟨[], [], rfl⟩
      | cons a as => cases ht
  | cons w t ih =>
      intro h
      unfold occursWithin at h
      rcases Bool.or_eq_true_iff.mp h with h1 | h2
      · rcases leadsWith_exists ks (w :: t) h1 with ⟨suf, hsuf⟩
        exact ⟨[], suf, by rw [hsuf]; rfl⟩
      · rcases ih h2 with ⟨pre, suf, hps⟩
        exact ⟨w :: pre, suf, by rw [hps]; rfl⟩

/-- C7: keyword matching in the (spec-modelled) location resolver is
word-boundary based: a keyword matches only when its word tokens occur
as a contiguous run of whole word tokens of the query, so a city keyword
never matches inside a product token and vice versa; in particular the
query word "textiles" does not match a "tiles" keyword fragment, and a
"textiles" keyword does not match the query word "tiles". -/
theorem city_keyword_word_boundary :
    (∀ kw q : List Char, keywordMatches kw q = true →
      ∃ pre suf, wordTokens q = pre ++ wordTokens kw ++ suf) ∧
    keywordMatches
      ['t', 'i', 'l', 'e', 's']
      ['c', 'e', 'r', 'a', 'm', 'i', 'c', ' ',
       't', 'e', 'x', 't', 'i', 'l', 'e', 's'] = false ∧
    keywordMatches
      ['t', 'e', 'x', 't', 'i', 'l', 'e', 's']
      ['t', 'i', 'l', 'e', 's'] = false := by
  refine ⟨?_, by decide, by decide⟩
  intro kw q h
  exact occursWithin_exists (wordTokens kw) (wordTokens q) h

theorem city_keyword_word_boundary_witness :
    ∃ pre suf,
      wordTokens ['i', 'n', ' ', 'm', 'u', 'm', 'b', 'a', 'i'] =
        pre ++ wordTokens ['m', 'u', 'm', 'b', 'a', 'i'] ++ suf :=
  city_keyword_word_boundary.1
    ['m', 'u', 'm', 'b', 'a', 'i']
    ['i', 'n', ' ', 'm', 'u', 'm', 'b', 'a', 'i'] (by decide)

end SearchTool
